import Mathlib

/-!
# varsort: sorting a file of variable-sized records

A shallow embedding of `varsort.c`.  The program reads a binary file (a 4-byte
record count, then for every record a 4-byte key, a 4-byte payload length and
that many 4-byte payload words), sorts the records with the C library's `qsort`
and the function `comparator`, and writes them out with `writeToFile`.

Conventions of the embedding:

* a file is the list of its bytes; `read` transfers as many of the requested
  bytes as the file still holds, like `read(2)` on a regular file;
* integers are stored in the machine's native order, taken to be little-endian;
* `int` is 32 bits wide and its arithmetic wraps around; `size_t` and
  pointers are 64 bits wide;
* `assert` is compiled in (`NDEBUG` is not defined);
* the header `sort.h` is not part of the sources: the record types are
  modelled from the specification and `MAX_DATA_INTS` is a parameter;
* memory returned by `malloc` has indeterminate contents, given by the
  parameter `heap` (allocation number, byte offset);
* opening and writing the output file are taken to succeed;
* a command-line argument is the list of its characters, and `getopt` scans
  the arguments as POSIX describes it.
-/

namespace Varsort

/-- One byte of a file. -/
abbrev Byte := Fin 256

/-- How a run can fail before anything is written.  `TruncatedInput` is the
`perror("read"); exit(1)` path, `PayloadTooLarge` the failed `assert`,
`OutOfMemory` the `return -1` after a failed `malloc`. -/
inductive Error where
  | TruncatedInput
  | PayloadTooLarge
  | OutOfMemory
  deriving DecidableEq, Repr

deriving instance DecidableEq for Except

/-- Modelled from the spec: the type `rec_nodata_t` of `sort.h`, a record's
fixed header: a signed 32-bit key and an unsigned 32-bit payload length. -/
structure rec_nodata_t where
  key : Int
  data_ints : Nat
  deriving DecidableEq, Repr

/-- Modelled from the spec: the type `rec_dataptr_t` of `sort.h`, a record in
memory: key, payload length and the buffer `data_ptr` points to, as the list of
its 32-bit words. -/
structure rec_dataptr_t where
  key : Int
  data_ints : Nat
  data_ptr : List Nat
  deriving DecidableEq, Repr

/-- Modelled from the spec: the type `rec_data_t` of `sort.h`, the writer's
staging record: key, payload length and an array `data` of `MAX_DATA_INTS`
words. -/
structure rec_data_t where
  key : Int
  data_ints : Nat
  data : List Nat
  deriving DecidableEq, Repr

/-- The four bytes of an unsigned 32-bit word in memory, least significant
first. -/
def bytes32 (w : Nat) : List Byte :=
  [⟨w % 256, Nat.mod_lt _ (by decide)⟩,
   ⟨w / 256 % 256, Nat.mod_lt _ (by decide)⟩,
   ⟨w / 65536 % 256, Nat.mod_lt _ (by decide)⟩,
   ⟨w / 16777216 % 256, Nat.mod_lt _ (by decide)⟩]

/-- The unsigned 32-bit word held by four bytes of memory. -/
def word32 (b0 b1 b2 b3 : Byte) : Nat :=
  b0.val + 256 * b1.val + 65536 * b2.val + 16777216 * b3.val

/-- The value of a 32-bit pattern read as an `int` (two's complement). -/
def toInt32 (w : Nat) : Int :=
  if w < 2147483648 then (w : Int) else (w : Int) - 4294967296

/-- The 32-bit pattern of an `int`. -/
def ofInt32 (k : Int) : Nat :=
  (k % 4294967296).toNat

/-- Reduction of an integer result to the range of `int`, wrapping around. -/
def wrap32 (x : Int) : Int :=
  toInt32 (ofInt32 x)

/-- The words of a buffer of bytes, four bytes a word; bytes after the last
whole word are left out. -/
def words : List Byte → List Nat
  | b0 :: b1 :: b2 :: b3 :: rest => word32 b0 b1 b2 b3 :: words rest
  | _ => []

/-- The call `read(fd, buf, count)` on a regular file whose unread part is
`file`: the bytes transferred (at most `count`, fewer at the end of the file)
and the part of the file left unread. -/
def read (file : List Byte) (count : Nat) : List Byte × List Byte :=
  (file.take count, file.drop count)

/-- The largest object size `malloc` grants (`PTRDIFF_MAX`). -/
def PTRDIFF_MAX : Nat := 9223372036854775807

/-- The size `n * size` as computed in `size_t`, for an `int` count `n`:
the count is converted to 64 bits unsigned and the product wraps. -/
def sizeOfArray (n : Int) (size : Nat) : Nat :=
  (n % 18446744073709551616).toNat * size % 18446744073709551616

/-- Whether `malloc(size)` returns a block: requests above `PTRDIFF_MAX` are
refused, all others (a request for 0 bytes too) are taken to be granted. -/
def mallocOk (size : Nat) : Bool :=
  decide (size ≤ PTRDIFF_MAX)

/-- The contents of allocation number `j`, of `size` bytes, as `malloc`
returns it. -/
def fresh (heap : Nat → Nat → Byte) (j size : Nat) : List Byte :=
  (List.range size).map (heap j)

/-- The function `comparator` of `varsort.c`: the difference of the two keys,
returned as an `int`, wrapped around at 32 bits. -/
def comparator (a b : rec_dataptr_t) : Int :=
  wrap32 (a.key - b.key)

/-- The C library's `qsort` on the array of record pointers.  The library
routine is not part of the sources; it is taken to be a stable sort by
insertion that places `a` before `b` when `cmp a b ≤ 0` and only ever moves
the pointers. -/
def qsort (cmp : rec_dataptr_t → rec_dataptr_t → Int) (arr : List rec_dataptr_t) :
    List rec_dataptr_t :=
  List.insertionSort (fun a b => cmp a b ≤ 0) arr

/-- The inner loop of `writeToFile`: `rec_data.data[j] = data_ptr[j]` for
`j = 0 .. data_ints - 1`.  An index outside `data_ptr` reads 0 and an index
outside `data` stores nothing; in C both are out of bounds. -/
def copyData (data_ptr : List Nat) (data_ints : Nat) (data : List Nat) : List Nat :=
  (List.range data_ints).foldl (fun d j => d.set j (data_ptr.getD j 0)) data

/-- The memory image of a staging record: key, payload length, then the whole
array `data`. -/
def image (r : rec_data_t) : List Byte :=
  bytes32 (ofInt32 r.key) ++ bytes32 r.data_ints ++ r.data.flatMap bytes32

/-- One pass of the outer loop of `writeToFile`: the record is copied into the
staging record, whose first `data_size` bytes are written.  Returns the staging
record as the pass leaves it and the bytes written. -/
def writeRecord (rec_data : rec_data_t) (r : rec_dataptr_t) : rec_data_t × List Byte :=
  let staged : rec_data_t :=
    { key := r.key, data_ints := r.data_ints,
      data := copyData r.data_ptr r.data_ints rec_data.data }
  let data_size := 2 * 4 + staged.data_ints * 4
  (staged, (image staged).take data_size)

/-- The outer loop of `writeToFile` over `records[0 .. numOfRecs - 1]`. -/
def writeLoop : rec_data_t → List rec_dataptr_t → List Byte
  | _, [] => []
  | rec_data, r :: rest =>
    let step := writeRecord rec_data r
    step.2 ++ writeLoop step.1 rest

/-- The function `writeToFile` of `varsort.c`: the bytes it writes to the
freshly truncated output file, the count first.  The staging record
`rec_data` lives on the stack; it starts zeroed here, and the loop assigns
every byte it writes as long as `data_ints` stays within the array. -/
def writeToFile (MAX_DATA_INTS : Nat) (records : List rec_dataptr_t) (numOfRecs : Int) :
    List Byte :=
  bytes32 (ofInt32 numOfRecs) ++
    writeLoop { key := 0, data_ints := 0, data := List.replicate MAX_DATA_INTS 0 }
      (records.take numOfRecs.toNat)

/-- The read loop of `main` from iteration `j` on, with `n` iterations to go,
on the unread part of the input file.  The result of the second `read`, of
the payload, is not looked at: what the file does not supply stays as `malloc`
returned it. -/
def readRecords (MAX_DATA_INTS : Nat) (heap : Nat → Nat → Byte) :
    Nat → Nat → List Byte → Except Error (List rec_dataptr_t)
  | _, 0, _ => .ok []
  | j, n + 1, file =>
    match read file 8 with
    | ([k0, k1, k2, k3, d0, d1, d2, d3], file1) =>
      let rec_nodata : rec_nodata_t :=
        { key := toInt32 (word32 k0 k1 k2 k3), data_ints := word32 d0 d1 d2 d3 }
      if rec_nodata.data_ints ≤ MAX_DATA_INTS then
        if mallocOk (rec_nodata.data_ints * 4) then
          let got := read file1 (rec_nodata.data_ints * 4)
          let buffer := got.1 ++ (fresh heap j (rec_nodata.data_ints * 4)).drop got.1.length
          let rec_dataptr : rec_dataptr_t :=
            { key := rec_nodata.key, data_ints := rec_nodata.data_ints,
              data_ptr := words buffer }
          match readRecords MAX_DATA_INTS heap (j + 1) n got.2 with
          | .ok rest => .ok (rec_dataptr :: rest)
          | .error e => .error e
        else .error .OutOfMemory
      else .error .PayloadTooLarge
    | _ => .error .TruncatedInput

/-- What a run leaves behind: how it ended and the output file (`none` when
the run never opened it). -/
structure Outcome where
  result : Except Error Unit
  output : Option (List Byte)

/-- The reading part of `main`, from the first `read` to `close(fd)`: the
value of `numOfRecs` and the records of `arrOfRecs`.  The arrays `arrOfRecs`
and `data_arr` are requested with the same size, so one test stands for both
allocations. -/
def readInput (MAX_DATA_INTS : Nat) (heap : Nat → Nat → Byte) (input : List Byte) :
    Except Error (Int × List rec_dataptr_t) :=
  match read input 4 with
  | ([n0, n1, n2, n3], file) =>
    let numOfRecs := toInt32 (word32 n0 n1 n2 n3)
    if mallocOk (sizeOfArray numOfRecs 8) then
      match readRecords MAX_DATA_INTS heap 0 numOfRecs.toNat file with
      | .ok arrOfRecs => .ok (numOfRecs, arrOfRecs)
      | .error e => .error e
    else .error .OutOfMemory
  | _ => .error .TruncatedInput

/-- The function `main` of `varsort.c` once the input file is open: read,
sort, write. -/
def main (MAX_DATA_INTS : Nat) (heap : Nat → Nat → Byte) (input : List Byte) : Outcome :=
  match readInput MAX_DATA_INTS heap input with
  | .error e => { result := .error e, output := none }
  | .ok (numOfRecs, arrOfRecs) =>
    let sorted := qsort comparator arrOfRecs
    { result := .ok (), output := some (writeToFile MAX_DATA_INTS sorted numOfRecs) }

/-- A record whose fields fit their C types: the key is an `int`, the payload
length an `unsigned int`, the buffer holds exactly `data_ints` words and each
word is an `unsigned int`. -/
def WellTyped (r : rec_dataptr_t) : Prop :=
  -2147483648 ≤ r.key ∧ r.key < 2147483648 ∧ r.data_ints < 4294967296 ∧
    r.data_ptr.length = r.data_ints ∧ ∀ w ∈ r.data_ptr, w < 4294967296

instance (r : rec_dataptr_t) : Decidable (WellTyped r) := by
  unfold WellTyped
  infer_instance

/-- The canonical layout of one record, in the words of the specification:
the 4-byte key, the 4-byte payload length, then the payload elements, 4 bytes
each, with nothing in between. -/
def canonicalRecord (r : rec_dataptr_t) : List Byte :=
  bytes32 (ofInt32 r.key) ++ bytes32 r.data_ints ++ r.data_ptr.flatMap bytes32

/-- The canonical layout of a file, in the words of the specification: the
4-byte count of the records, then the records in collection order. -/
def canonicalFile (rs : List rec_dataptr_t) : List Byte :=
  bytes32 rs.length ++ rs.flatMap canonicalRecord

/-- A heap whose fresh blocks hold zero bytes. -/
def zeroHeap : Nat → Nat → Byte := fun _ _ => 0

/-- Keys in ascending order, in the words of the specification:
`result[i].key <= result[i+1].key` for every valid `i`. -/
def keysAscending : List rec_dataptr_t → Prop
  | [] => True
  | [_] => True
  | a :: b :: rest => a.key ≤ b.key ∧ keysAscending (b :: rest)

instance decidableKeysAscending : (rs : List rec_dataptr_t) → Decidable (keysAscending rs)
  | [] => isTrue trivial
  | [_] => isTrue trivial
  | a :: b :: rest =>
    have := decidableKeysAscending (b :: rest)
    inferInstanceAs (Decidable (a.key ≤ b.key ∧ keysAscending (b :: rest)))

/-- The order `qsort` is to establish for a comparison function: no element
is directly followed by one that `cmp` places before it. -/
def orderedBy (cmp : rec_dataptr_t → rec_dataptr_t → Int) : List rec_dataptr_t → Prop
  | [] => True
  | [_] => True
  | a :: b :: rest => cmp a b ≤ 0 ∧ orderedBy cmp (b :: rest)

instance decidableOrderedBy (cmp : rec_dataptr_t → rec_dataptr_t → Int) :
    (rs : List rec_dataptr_t) → Decidable (orderedBy cmp rs)
  | [] => isTrue trivial
  | [_] => isTrue trivial
  | a :: b :: rest =>
    have := decidableOrderedBy cmp (b :: rest)
    inferInstanceAs (Decidable (cmp a b ≤ 0 ∧ orderedBy cmp (b :: rest)))

/-- Three records with payloads of 0, 1 and 2 words. -/
def sampleRecords : List rec_dataptr_t :=
  [{ key := 5, data_ints := 0, data_ptr := [] },
   { key := 2, data_ints := 1, data_ptr := [7] },
   { key := 9, data_ints := 2, data_ptr := [1, 2] }]

/-- Two records whose keys are the ends of the range 0 .. 2^31 - 1. -/
def boundaryRecords : List rec_dataptr_t :=
  [{ key := 2147483647, data_ints := 0, data_ptr := [] },
   { key := 0, data_ints := 1, data_ptr := [4294967295] }]

/-- The indices `j` at which the inner loop of `writeToFile` reads
`data_ptr[j]` and stores into `rec_data.data[j]`, for a record of `data_ints`
payload words. -/
def copyIndices (data_ints : Nat) : List Nat :=
  List.range data_ints

/-- The value `data_size` of `writeToFile` for a record of `data_ints` payload
words: `2 * sizeof (unsigned int) + data_ints * sizeof (unsigned int)`. -/
def data_size (data_ints : Nat) : Nat :=
  2 * 4 + data_ints * 4

/-- The size of the staging record `rec_data_t`: key, payload length and
`MAX_DATA_INTS` words. -/
def sizeof_rec_data_t (MAX_DATA_INTS : Nat) : Nat :=
  4 + 4 + MAX_DATA_INTS * 4

/-- How the argument checking of `main` ends: with the usage message and
`exit(1)`, or with the variables `inFile` and `outFile` as the option loop
left them (`none` for a variable that was never assigned). -/
inductive ArgCheck where
  | usage
  | accepted (inFile outFile : Option (List Char))
  deriving DecidableEq, Repr

/-- The loop `while ((c = getopt(argc, argv, "i:o:")) != -1)` of `main`, on the
arguments from `argv[optind]` on.  Each pass is one call of the C library's
`getopt`, taken as POSIX describes it: the scan ends at the end of `argv`, at
an argument that is not an option, and behind `--`; `-i` and `-o` take the
rest of their argument, or else the next argument, as `optarg`; an unknown
option letter or a missing option argument gives `?`, on which `main` prints
the usage message and exits.  Returns the final `optind`, `inFile` and
`outFile`, or `none` for the exit. -/
def optionLoop : List (List Char) → Nat → Option (List Char) → Option (List Char) →
    Option (Nat × Option (List Char) × Option (List Char))
  | [], optind, inFile, outFile => some (optind, inFile, outFile)
  | arg :: more, optind, inFile, outFile =>
    match arg with
    | '-' :: c :: rest =>
      if c = '-' ∧ rest = [] then some (optind + 1, inFile, outFile)
      else if c = 'i' ∨ c = 'o' then
        match rest with
        | _ :: _ =>
          if c = 'i' then optionLoop more (optind + 1) (some rest) outFile
          else optionLoop more (optind + 1) inFile (some rest)
        | [] =>
          match more with
          | optarg :: more2 =>
            if c = 'i' then optionLoop more2 (optind + 2) (some optarg) outFile
            else optionLoop more2 (optind + 2) inFile (some optarg)
          | [] => none
      else none
    | _ => some (optind, inFile, outFile)

/-- The argument checking of `main`, from `argc != 5` to the last test of
`optind`, before the input file is opened. -/
def checkArgs (argv : List (List Char)) : ArgCheck :=
  if argv.length ≠ 5 then .usage
  else
    match optionLoop (argv.drop 1) 1 none none with
    | none => .usage
    | some (optind, inFile, outFile) =>
      if optind ≠ 5 then .usage
      else if optind = 0 then .usage
      else .accepted inFile outFile

/-! ## Encoding of words -/

theorem word32_bytes32 (w : Nat) (h : w < 4294967296) :
    ∃ b0 b1 b2 b3, bytes32 w = [b0, b1, b2, b3] ∧ word32 b0 b1 b2 b3 = w := by
  refine ⟨_, _, _, _, rfl, ?_⟩
  simp only [word32]
  omega

theorem bytes32_word32 (b0 b1 b2 b3 : Byte) : bytes32 (word32 b0 b1 b2 b3) = [b0, b1, b2, b3] := by
  have h0 := b0.isLt
  have h1 := b1.isLt
  have h2 := b2.isLt
  have h3 := b3.isLt
  simp only [bytes32, word32, List.cons.injEq, and_true]
  refine ⟨?_, ?_, ?_, ?_⟩ <;> apply Fin.ext <;> simp only <;> omega

theorem length_bytes32 (w : Nat) : (bytes32 w).length = 4 := rfl

theorem toInt32_ofInt32 (k : Int) (h1 : -2147483648 ≤ k) (h2 : k < 2147483648) :
    toInt32 (ofInt32 k) = k := by
  unfold toInt32 ofInt32
  split <;> omega

theorem ofInt32_natCast (n : Nat) : bytes32 (ofInt32 (n : Int)) = bytes32 n := by
  unfold ofInt32
  have : ((n : Int) % 4294967296).toNat = n % 4294967296 := by omega
  rw [this]
  simp only [bytes32, List.cons.injEq, and_true]
  refine ⟨?_, ?_, ?_, ?_⟩ <;> apply Fin.ext <;> simp only <;> omega

theorem words_bytes32_append (w : Nat) (h : w < 4294967296) (rest : List Byte) :
    words (bytes32 w ++ rest) = w :: words rest := by
  show word32 _ _ _ _ :: words rest = w :: words rest
  congr 1
  simp only [word32]
  omega

theorem words_flatMap_bytes32 (ws : List Nat) (h : ∀ w ∈ ws, w < 4294967296) :
    words (ws.flatMap bytes32) = ws := by
  induction ws with
  | nil => rfl
  | cons w ws ih =>
    rw [List.flatMap_cons, words_bytes32_append w (h w (List.mem_cons_self _ _)),
      ih (fun x hx => h x (List.mem_cons_of_mem _ hx))]

theorem length_flatMap_bytes32 (ws : List Nat) : (ws.flatMap bytes32).length = ws.length * 4 := by
  induction ws with
  | nil => rfl
  | cons w ws ih => simp only [List.flatMap_cons, List.length_append, length_bytes32, ih, List.length_cons]; omega

/-! ## The writer -/

theorem copyData_succ (src : List Nat) (n : Nat) (dst : List Nat) :
    copyData src (n + 1) dst = (copyData src n dst).set n (src.getD n 0) := by
  simp [copyData, List.range_succ, List.foldl_append]

theorem copyData_eq (src : List Nat) (n : Nat) (dst : List Nat)
    (h1 : n ≤ src.length) (h2 : n ≤ dst.length) :
    copyData src n dst = src.take n ++ dst.drop n := by
  induction n with
  | zero => simp [copyData]
  | succ n ih =>
    rw [copyData_succ, ih (by omega) (by omega)]
    apply List.ext_getElem?
    intro i
    simp only [List.getElem?_set, List.getElem?_append, List.getElem?_take, List.getElem?_drop,
      List.length_append, List.length_take, List.length_drop]
    have hm1 : n ⊓ src.length = n := by omega
    have hm2 : (n + 1) ⊓ src.length = n + 1 := by omega
    rw [hm1, hm2]
    by_cases hi : n = i
    · subst hi
      have hg : src.getD n 0 = src[n] := by
        simp [List.getD, List.getElem?_eq_getElem (show n < src.length by omega)]
      simp only [if_true, hg]
      rw [if_pos (by omega), if_pos (by omega), if_pos (by omega),
        List.getElem?_eq_getElem (show n < src.length by omega)]
    · rw [if_neg hi]
      by_cases hlt : i < n
      · rw [if_pos hlt, if_pos hlt, if_pos (by omega), if_pos (by omega)]
      · rw [if_neg hlt, if_neg (by omega)]
        congr 1
        omega


theorem length_copyData (src : List Nat) (n : Nat) (dst : List Nat) :
    (copyData src n dst).length = dst.length := by
  induction n with
  | zero => simp [copyData]
  | succ n ih => rw [copyData_succ, List.length_set, ih]

theorem writeRecord_bytes (rec_data : rec_data_t) (r : rec_dataptr_t)
    (hlen : r.data_ptr.length = r.data_ints) (hmax : r.data_ints ≤ rec_data.data.length) :
    (writeRecord rec_data r).2 = canonicalRecord r := by
  simp only [writeRecord, image, canonicalRecord]
  rw [copyData_eq _ _ _ (by omega) hmax, ← hlen, List.take_length, List.flatMap_append,
    ← List.append_assoc]
  apply List.take_left'
  simp only [List.length_append, length_bytes32, length_flatMap_bytes32]

theorem writeRecord_length (rec_data : rec_data_t) (r : rec_dataptr_t) :
    (writeRecord rec_data r).1.data.length = rec_data.data.length := by
  simp only [writeRecord, length_copyData]

theorem writeLoop_eq (records : List rec_dataptr_t) :
    ∀ rec_data : rec_data_t,
      (∀ r ∈ records, r.data_ptr.length = r.data_ints ∧ r.data_ints ≤ rec_data.data.length) →
      writeLoop rec_data records = records.flatMap canonicalRecord := by
  induction records with
  | nil => intro _ _; rfl
  | cons r rest ih =>
    intro rec_data h
    have hr := h r (List.mem_cons_self _ _)
    simp only [writeLoop, List.flatMap_cons]
    rw [writeRecord_bytes rec_data r hr.1 hr.2, ih]
    intro x hx
    rw [writeRecord_length]
    exact h x (List.mem_cons_of_mem _ hx)

theorem writeToFile_eq (MAX_DATA_INTS : Nat) (records : List rec_dataptr_t)
    (h : ∀ r ∈ records, r.data_ptr.length = r.data_ints ∧ r.data_ints ≤ MAX_DATA_INTS) :
    writeToFile MAX_DATA_INTS records records.length = canonicalFile records := by
  simp only [writeToFile, canonicalFile, ofInt32_natCast, Int.toNat_ofNat, List.take_length]
  rw [writeLoop_eq]
  simpa using h

/-! ## The reader -/

theorem ofInt32_lt (k : Int) : ofInt32 k < 4294967296 := by
  unfold ofInt32
  omega

theorem fresh_length (heap : Nat → Nat → Byte) (j size : Nat) : (fresh heap j size).length = size := by
  simp [fresh]

theorem readRecords_cons (MAX_DATA_INTS : Nat) (heap : Nat → Nat → Byte) (j n : Nat)
    (r : rec_dataptr_t) (rest : List Byte) (ht : WellTyped r) (hmax : r.data_ints ≤ MAX_DATA_INTS) :
    readRecords MAX_DATA_INTS heap j (n + 1) (canonicalRecord r ++ rest) =
      match readRecords MAX_DATA_INTS heap (j + 1) n rest with
      | .ok rs => .ok (r :: rs)
      | .error e => .error e := by
  obtain ⟨hkey1, hkey2, hints, hlen, hword⟩ := ht
  obtain ⟨k0, k1, k2, k3, hk, hkw⟩ := word32_bytes32 (ofInt32 r.key) (ofInt32_lt _)
  obtain ⟨d0, d1, d2, d3, hd, hdw⟩ := word32_bytes32 r.data_ints hints
  have hfile : canonicalRecord r ++ rest =
      k0 :: k1 :: k2 :: k3 :: d0 :: d1 :: d2 :: d3 :: (r.data_ptr.flatMap bytes32 ++ rest) := by
    simp only [canonicalRecord, hk, hd, List.cons_append, List.nil_append, List.append_assoc]
  have hread : read (canonicalRecord r ++ rest) 8 =
      ([k0, k1, k2, k3, d0, d1, d2, d3], r.data_ptr.flatMap bytes32 ++ rest) := by
    rw [hfile]; rfl
  have hpay : read (r.data_ptr.flatMap bytes32 ++ rest) (r.data_ints * 4) =
      (r.data_ptr.flatMap bytes32, rest) := by
    have hl : (r.data_ptr.flatMap bytes32).length = r.data_ints * 4 := by
      rw [length_flatMap_bytes32, hlen]
    simp only [read, ← hl, List.take_left, List.drop_left]
  have hm : mallocOk (r.data_ints * 4) = true := by
    simp only [mallocOk, PTRDIFF_MAX, decide_eq_true_eq]
    omega
  rw [readRecords, hread]
  simp only [hdw, hkw, hmax, hm, if_true, hpay, toInt32_ofInt32 _ hkey1 hkey2]
  have hbuf : words (r.data_ptr.flatMap bytes32 ++
      List.drop (r.data_ptr.flatMap bytes32).length (fresh heap j (r.data_ints * 4))) =
      r.data_ptr := by
    rw [List.drop_of_length_le (by rw [fresh_length, length_flatMap_bytes32, hlen]),
      List.append_nil, words_flatMap_bytes32 _ hword]
  rw [hbuf]

theorem readRecords_append (MAX_DATA_INTS : Nat) (heap : Nat → Nat → Byte)
    (rs : List rec_dataptr_t) :
    ∀ (j n : Nat) (rest : List Byte),
      (∀ r ∈ rs, WellTyped r ∧ r.data_ints ≤ MAX_DATA_INTS) →
      readRecords MAX_DATA_INTS heap j (rs.length + n) (rs.flatMap canonicalRecord ++ rest) =
        match readRecords MAX_DATA_INTS heap (j + rs.length) n rest with
        | .ok more => .ok (rs ++ more)
        | .error e => .error e := by
  induction rs with
  | nil =>
    intro j n rest _
    simp only [List.length_nil, Nat.zero_add, List.flatMap_nil, List.nil_append, Nat.add_zero]
    cases readRecords MAX_DATA_INTS heap j n rest <;> rfl
  | cons r rs ih =>
    intro j n rest h
    have hr := h r (List.mem_cons_self _ _)
    have hrs : ∀ x ∈ rs, WellTyped x ∧ x.data_ints ≤ MAX_DATA_INTS :=
      fun x hx => h x (List.mem_cons_of_mem _ hx)
    have hn : (r :: rs).length + n = (rs.length + n) + 1 := by simp only [List.length_cons]; omega
    rw [hn, List.flatMap_cons, List.append_assoc, readRecords_cons _ _ _ _ _ _ hr.1 hr.2,
      ih (j + 1) n rest hrs]
    have hj : j + 1 + rs.length = j + (r :: rs).length := by simp only [List.length_cons]; omega
    rw [hj]
    cases readRecords MAX_DATA_INTS heap (j + (r :: rs).length) n rest <;> rfl

theorem readInput_count (MAX_DATA_INTS : Nat) (heap : Nat → Nat → Byte) (w : Nat)
    (file : List Byte) (hw : w < 2147483648) :
    readInput MAX_DATA_INTS heap (bytes32 w ++ file) =
      match readRecords MAX_DATA_INTS heap 0 w file with
      | .ok arrOfRecs => .ok ((w : Int), arrOfRecs)
      | .error e => .error e := by
  obtain ⟨n0, n1, n2, n3, hb, hv⟩ := word32_bytes32 w (by omega)
  have hread : read (bytes32 w ++ file) 4 = ([n0, n1, n2, n3], file) := by
    rw [hb]; rfl
  have hi : toInt32 w = (w : Int) := by
    unfold toInt32; rw [if_pos hw]
  have hm : mallocOk (sizeOfArray (w : Int) 8) = true := by
    simp only [mallocOk, sizeOfArray, PTRDIFF_MAX, decide_eq_true_eq]
    omega
  rw [readInput, hread]
  simp only [hv, hi, hm, if_true, Int.toNat_ofNat]

theorem readInput_negative_count (MAX_DATA_INTS : Nat) (heap : Nat → Nat → Byte) (w : Nat)
    (file : List Byte) (h1 : 2147483648 ≤ w) (h2 : w < 4294967296) :
    readInput MAX_DATA_INTS heap (bytes32 w ++ file) = .error .OutOfMemory := by
  obtain ⟨n0, n1, n2, n3, hb, hv⟩ := word32_bytes32 w h2
  have hread : read (bytes32 w ++ file) 4 = ([n0, n1, n2, n3], file) := by
    rw [hb]; rfl
  have hi : toInt32 w = (w : Int) - 4294967296 := by
    unfold toInt32; rw [if_neg (by omega)]
  have hm : mallocOk (sizeOfArray ((w : Int) - 4294967296) 8) = false := by
    simp only [mallocOk, sizeOfArray, PTRDIFF_MAX, decide_eq_false_iff_not]
    omega
  rw [readInput, hread]
  simp only [hv, hi, hm]
  rfl

theorem readInput_short (MAX_DATA_INTS : Nat) (heap : Nat → Nat → Byte) (input : List Byte)
    (h : input.length < 4) : readInput MAX_DATA_INTS heap input = .error .TruncatedInput := by
  match input, h with
  | [], _ => rfl
  | [_], _ => rfl
  | [_, _], _ => rfl
  | [_, _, _], _ => rfl
  | _ :: _ :: _ :: _ :: _, h => simp only [List.length_cons] at h; omega

theorem readRecords_length (MAX_DATA_INTS : Nat) (heap : Nat → Nat → Byte) :
    ∀ (n j : Nat) (file : List Byte) (rs : List rec_dataptr_t),
      readRecords MAX_DATA_INTS heap j n file = .ok rs → rs.length = n := by
  intro n
  induction n with
  | zero =>
    intro j file rs h
    simp only [readRecords, Except.ok.injEq] at h
    rw [← h]; rfl
  | succ n ih =>
    intro j file rs h
    rw [readRecords] at h
    split at h
    · dsimp only at h
      split at h
      · split at h
        · split at h
          · rename_i more hmore
            simp only [Except.ok.injEq] at h
            rw [← h, List.length_cons, ih _ _ _ hmore]
          · cases h
        · cases h
      · cases h
    · cases h

theorem readInput_canonicalFile (MAX_DATA_INTS : Nat) (heap : Nat → Nat → Byte)
    (rs : List rec_dataptr_t) (extra : List Byte) (hn : rs.length < 2147483648)
    (h : ∀ r ∈ rs, WellTyped r ∧ r.data_ints ≤ MAX_DATA_INTS) :
    readInput MAX_DATA_INTS heap (canonicalFile rs ++ extra) = .ok ((rs.length : Int), rs) := by
  have := readRecords_append MAX_DATA_INTS heap rs 0 0 extra h
  simp only [Nat.add_zero, Nat.zero_add, readRecords, List.append_nil] at this
  rw [canonicalFile, List.append_assoc, readInput_count _ _ _ _ hn, this]

/-! ## The pipeline -/

theorem perm_qsort (cmp : rec_dataptr_t → rec_dataptr_t → Int) (arr : List rec_dataptr_t) :
    (qsort cmp arr).Perm arr :=
  List.perm_insertionSort _ arr

theorem main_canonicalFile (MAX_DATA_INTS : Nat) (heap : Nat → Nat → Byte)
    (rs : List rec_dataptr_t) (extra : List Byte) (hn : rs.length < 2147483648)
    (h : ∀ r ∈ rs, WellTyped r ∧ r.data_ints ≤ MAX_DATA_INTS) :
    main MAX_DATA_INTS heap (canonicalFile rs ++ extra) =
      { result := .ok (), output := some (canonicalFile (qsort comparator rs)) } := by
  have hp := perm_qsort comparator rs
  have hw : writeToFile MAX_DATA_INTS (qsort comparator rs) (rs.length : Int) =
      canonicalFile (qsort comparator rs) := by
    rw [← hp.length_eq]
    apply writeToFile_eq
    intro r hr
    have := h r (hp.subset hr)
    exact ⟨this.1.2.2.2.1, this.2⟩
  simp only [main, readInput_canonicalFile _ _ _ _ hn h, hw]

/-- Whatever sorting routine is used with `comparator`: the only arrangement of
the records with keys 2147483647 and -2 in which `comparator` is not positive
on neighbours has the larger key first. -/
theorem comparator_order_puts_larger_key_first (l : List rec_dataptr_t)
    (hp : l.Perm [{ key := 2147483647, data_ints := 0, data_ptr := [] },
      { key := -2, data_ints := 0, data_ptr := [] }])
    (hc : orderedBy comparator l) :
    l = [{ key := 2147483647, data_ints := 0, data_ptr := [] },
      { key := -2, data_ints := 0, data_ptr := [] }] := by
  match l, hp, hc with
  | [], hp, _ => exact absurd hp.length_eq (by decide)
  | [_], hp, _ => exact absurd hp.length_eq (by simp)
  | _ :: _ :: _ :: _, hp, _ => exact absurd hp.length_eq (by simp)
  | [x, y], hp, hc =>
    have hx : x ∈ [({ key := 2147483647, data_ints := 0, data_ptr := [] } : rec_dataptr_t),
        { key := -2, data_ints := 0, data_ptr := [] }] := hp.subset (List.mem_cons_self _ _)
    have hy : y ∈ [({ key := 2147483647, data_ints := 0, data_ptr := [] } : rec_dataptr_t),
        { key := -2, data_ints := 0, data_ptr := [] }] :=
      hp.subset (List.mem_cons_of_mem _ (List.mem_cons_self _ _))
    simp only [List.mem_cons, List.mem_singleton, List.not_mem_nil, or_false] at hx hy
    rcases hx with rfl | rfl <;> rcases hy with rfl | rfl
    · exact absurd hp (by decide)
    · rfl
    · exact absurd hc (by decide)
    · exact absurd hp (by decide)

/-- C1 (fails on the code): on the well-formed file holding the two records
with keys 2147483647 and -2, in that order, `main` writes the records back in
the same order, although the second key is smaller than the first. -/
theorem main_writes_keys_out_of_order (MAX_DATA_INTS : Nat) (heap : Nat → Nat → Byte) :
    main MAX_DATA_INTS heap
        (canonicalFile [{ key := 2147483647, data_ints := 0, data_ptr := [] },
          { key := -2, data_ints := 0, data_ptr := [] }]) =
      { result := .ok (),
        output := some (canonicalFile [{ key := 2147483647, data_ints := 0, data_ptr := [] },
          { key := -2, data_ints := 0, data_ptr := [] }]) } ∧
    ¬ keysAscending [{ key := 2147483647, data_ints := 0, data_ptr := [] },
      { key := -2, data_ints := 0, data_ptr := [] }] := by
  refine ⟨?_, by decide⟩
  have h := main_canonicalFile MAX_DATA_INTS heap
    [{ key := 2147483647, data_ints := 0, data_ptr := [] },
      { key := -2, data_ints := 0, data_ptr := [] }] [] (by decide)
    (by
      intro r hr
      simp only [List.mem_cons, List.mem_singleton, List.not_mem_nil, or_false] at hr
      rcases hr with rfl | rfl
      · exact ⟨by decide, Nat.zero_le _⟩
      · exact ⟨by decide, Nat.zero_le _⟩)
  rw [List.append_nil] at h
  rw [h]
  rfl

/-- C5 (fails on the code): for the keys 2147483647 and -2 the 32-bit
difference wraps, so `comparator` is negative although the first key is the
larger one, and positive with the arguments exchanged. -/
theorem comparator_sign_wraps :
    comparator { key := 2147483647, data_ints := 0, data_ptr := [] }
        { key := -2, data_ints := 0, data_ptr := [] } = -2147483647 ∧
      comparator { key := -2, data_ints := 0, data_ptr := [] }
        { key := 2147483647, data_ints := 0, data_ptr := [] } = 2147483647 := by
  decide

theorem length_canonicalRecord (r : rec_dataptr_t) (h : r.data_ptr.length = r.data_ints) :
    (canonicalRecord r).length = 8 + 4 * r.data_ints := by
  simp only [canonicalRecord, List.length_append, length_bytes32, length_flatMap_bytes32, h]
  omega

theorem length_flatMap_canonicalRecord (rs : List rec_dataptr_t)
    (h : ∀ r ∈ rs, r.data_ptr.length = r.data_ints) :
    (rs.flatMap canonicalRecord).length = (rs.map (fun r => 8 + 4 * r.data_ints)).sum := by
  induction rs with
  | nil => rfl
  | cons r rs ih =>
    rw [List.flatMap_cons, List.length_append, length_canonicalRecord r (h r (List.mem_cons_self _ _)),
      ih (fun x hx => h x (List.mem_cons_of_mem _ hx)), List.map_cons, List.sum_cons]

/-- C2: on a well-formed input file (a count that fits the 4-byte header and
that many complete records, each within its C types and with at most
`MAX_DATA_INTS` payload words) whatever `main` writes is the canonical file of
a permutation of the input records; when the count is below 2^31 the read
decodes exactly the input records and the run does write such a file. -/
theorem output_permutation_of_input (MAX_DATA_INTS : Nat) (heap : Nat → Nat → Byte)
    (rs : List rec_dataptr_t) (hN : rs.length < 4294967296)
    (h : ∀ r ∈ rs, WellTyped r ∧ r.data_ints ≤ MAX_DATA_INTS) :
    (∀ out, (main MAX_DATA_INTS heap (canonicalFile rs)).output = some out →
      ∃ written, written.Perm rs ∧ out = canonicalFile written) ∧
    (rs.length < 2147483648 →
      readInput MAX_DATA_INTS heap (canonicalFile rs) = .ok ((rs.length : Int), rs) ∧
      ∃ written, written.Perm rs ∧
        main MAX_DATA_INTS heap (canonicalFile rs) =
          { result := .ok (), output := some (canonicalFile written) }) := by
  have hmain := fun hn => main_canonicalFile MAX_DATA_INTS heap rs [] hn h
  have hread := fun hn => readInput_canonicalFile MAX_DATA_INTS heap rs [] hn h
  simp only [List.append_nil] at hmain hread
  constructor
  · intro out hout
    by_cases hn : rs.length < 2147483648
    · rw [hmain hn] at hout
      simp only [Option.some.injEq] at hout
      exact ⟨qsort comparator rs, perm_qsort _ _, hout.symm⟩
    · have hneg : readInput MAX_DATA_INTS heap (canonicalFile rs) = .error .OutOfMemory :=
        readInput_negative_count _ _ _ _ (by omega) hN
      simp only [main, hneg] at hout
      cases hout
  · intro hn
    exact ⟨hread hn, qsort comparator rs, perm_qsort _ _, hmain hn⟩

theorem output_permutation_of_input_witness :
    (sampleRecords.length < 4294967296 ∧
      ∀ r ∈ sampleRecords, WellTyped r ∧ r.data_ints ≤ 128) ∧
    (∀ out, (main 128 zeroHeap (canonicalFile sampleRecords)).output = some out →
      ∃ written, written.Perm sampleRecords ∧ out = canonicalFile written) ∧
    (sampleRecords.length < 2147483648 →
      readInput 128 zeroHeap (canonicalFile sampleRecords) =
        .ok ((sampleRecords.length : Int), sampleRecords) ∧
      ∃ written, written.Perm sampleRecords ∧
        main 128 zeroHeap (canonicalFile sampleRecords) =
          { result := .ok (), output := some (canonicalFile written) }) :=
  ⟨⟨by decide, by decide⟩,
    output_permutation_of_input 128 zeroHeap sampleRecords (by decide) (by decide)⟩

/-- C3: for a collection of fewer than 2^31 records, each within its C types
and with at most `MAX_DATA_INTS` payload words (0 and `MAX_DATA_INTS`
included), the read of `main` on the bytes `writeToFile` emits succeeds and
returns the count and the very same records, in the same order. -/
theorem read_writeToFile_roundtrip (MAX_DATA_INTS : Nat) (heap : Nat → Nat → Byte)
    (rs : List rec_dataptr_t) (hN : rs.length < 2147483648)
    (h : ∀ r ∈ rs, WellTyped r ∧ r.data_ints ≤ MAX_DATA_INTS) :
    readInput MAX_DATA_INTS heap (writeToFile MAX_DATA_INTS rs (rs.length : Int)) =
      .ok ((rs.length : Int), rs) := by
  rw [writeToFile_eq MAX_DATA_INTS rs (fun r hr => ⟨(h r hr).1.2.2.2.1, (h r hr).2⟩)]
  have := readInput_canonicalFile MAX_DATA_INTS heap rs [] hN h
  rwa [List.append_nil] at this

theorem read_writeToFile_roundtrip_witness :
    (sampleRecords.length < 2147483648 ∧ ∀ r ∈ sampleRecords, WellTyped r ∧ r.data_ints ≤ 2) ∧
    readInput 2 zeroHeap (writeToFile 2 sampleRecords (sampleRecords.length : Int)) =
      .ok ((sampleRecords.length : Int), sampleRecords) :=
  ⟨⟨by decide, by decide⟩, read_writeToFile_roundtrip 2 zeroHeap sampleRecords (by decide) (by decide)⟩

/-- C4: for a collection whose records carry exactly `data_ints` payload
words, at most `MAX_DATA_INTS` of them, `writeToFile` emits the canonical
layout (the 4-byte count, then per record the key, the payload length and the
payload words, nothing else), of 4 + sum of (8 + 4 * data_ints) bytes. -/
theorem writeToFile_canonical_layout (MAX_DATA_INTS : Nat) (rs : List rec_dataptr_t)
    (h : ∀ r ∈ rs, r.data_ptr.length = r.data_ints ∧ r.data_ints ≤ MAX_DATA_INTS) :
    writeToFile MAX_DATA_INTS rs (rs.length : Int) = canonicalFile rs ∧
    (writeToFile MAX_DATA_INTS rs (rs.length : Int)).length =
      4 + (rs.map (fun r => 8 + 4 * r.data_ints)).sum := by
  rw [writeToFile_eq MAX_DATA_INTS rs h]
  refine ⟨rfl, ?_⟩
  rw [canonicalFile, List.length_append, length_bytes32,
    length_flatMap_canonicalRecord rs (fun r hr => (h r hr).1)]

theorem writeToFile_canonical_layout_witness :
    (∀ r ∈ sampleRecords, r.data_ptr.length = r.data_ints ∧ r.data_ints ≤ 2) ∧
    writeToFile 2 sampleRecords (sampleRecords.length : Int) = canonicalFile sampleRecords ∧
    (writeToFile 2 sampleRecords (sampleRecords.length : Int)).length =
      4 + (sampleRecords.map (fun r => 8 + 4 * r.data_ints)).sum :=
  ⟨by decide, writeToFile_canonical_layout 2 sampleRecords (by decide)⟩

/-! ## Failing reads -/

theorem readRecords_short_header (MAX_DATA_INTS : Nat) (heap : Nat → Nat → Byte) (j n : Nat)
    (file : List Byte) (h : file.length < 8) :
    readRecords MAX_DATA_INTS heap j (n + 1) file = .error .TruncatedInput := by
  rw [readRecords]
  split
  · rename_i heq
    have hl : (read file 8).1.length = 8 := by rw [heq]; rfl
    simp only [read, List.length_take] at hl
    omega
  · rfl

theorem readRecords_oversized (MAX_DATA_INTS : Nat) (heap : Nat → Nat → Byte) (j n : Nat)
    (k0 k1 k2 k3 : Byte) (len : Nat) (rest : List Byte)
    (hlen : MAX_DATA_INTS < len) (hlen32 : len < 4294967296) :
    readRecords MAX_DATA_INTS heap j (n + 1) ([k0, k1, k2, k3] ++ bytes32 len ++ rest) =
      .error .PayloadTooLarge := by
  obtain ⟨d0, d1, d2, d3, hd, hdw⟩ := word32_bytes32 len hlen32
  have hread : read ([k0, k1, k2, k3] ++ bytes32 len ++ rest) 8 =
      ([k0, k1, k2, k3, d0, d1, d2, d3], rest) := by
    rw [hd]; rfl
  rw [readRecords, hread]
  simp only [hdw, Nat.not_le.mpr hlen, if_false]

theorem readInput_error (MAX_DATA_INTS : Nat) (heap : Nat → Nat → Byte) (N : Nat)
    (rs : List rec_dataptr_t) (file : List Byte) (e : Error) (hN : N < 4294967296)
    (hk : rs.length < N) (h : ∀ r ∈ rs, WellTyped r ∧ r.data_ints ≤ MAX_DATA_INTS)
    (hfile : ∀ j n, readRecords MAX_DATA_INTS heap j (n + 1) file = .error e) :
    readInput MAX_DATA_INTS heap (bytes32 N ++ rs.flatMap canonicalRecord ++ file) =
      .error (if N < 2147483648 then e else .OutOfMemory) := by
  rw [List.append_assoc]
  by_cases hn : N < 2147483648
  · obtain ⟨m, hm⟩ : ∃ m, N = rs.length + (m + 1) := ⟨N - rs.length - 1, by omega⟩
    rw [if_pos hn, readInput_count _ _ _ _ hn, hm, readRecords_append _ _ _ _ _ _ h, hfile]
  · rw [if_neg hn, readInput_negative_count _ _ _ _ (by omega) hN]

theorem main_error (MAX_DATA_INTS : Nat) (heap : Nat → Nat → Byte) (input : List Byte)
    (e : Error) (h : readInput MAX_DATA_INTS heap input = .error e) :
    main MAX_DATA_INTS heap input = { result := .error e, output := none } := by
  simp only [main, h]

theorem readInput_missing_payload (M : Nat) (heap : Nat → Nat → Byte) :
    readInput (M + 1) heap (bytes32 1 ++ bytes32 0 ++ bytes32 1) =
      .ok (1, [{ key := 0, data_ints := 1,
                 data_ptr := [word32 (heap 0 0) (heap 0 1) (heap 0 2) (heap 0 3)] }]) := by
  have h1 : (1 : Nat) ≤ M + 1 := Nat.le_add_left 1 M
  have hfile : bytes32 1 ++ bytes32 0 ++ bytes32 1 = [1, 0, 0, 0, 0, 0, 0, 0, 1, 0, 0, 0] := by
    decide
  have hread : read ([1, 0, 0, 0, 0, 0, 0, 0, 1, 0, 0, 0] : List Byte) 4 =
      ([1, 0, 0, 0], [0, 0, 0, 0, 1, 0, 0, 0]) := rfl
  have hn : toInt32 (word32 1 0 0 0) = 1 := by decide
  have hm : mallocOk (sizeOfArray 1 8) = true := by decide
  have hrec : readRecords (M + 1) heap 0 1 ([0, 0, 0, 0, 1, 0, 0, 0] : List Byte) =
      .ok [{ key := 0, data_ints := 1,
             data_ptr := [word32 (heap 0 0) (heap 0 1) (heap 0 2) (heap 0 3)] }] := by
    have hread8 : read ([0, 0, 0, 0, 1, 0, 0, 0] : List Byte) 8 =
        ([0, 0, 0, 0, 1, 0, 0, 0], []) := rfl
    have hd : word32 0 0 0 1 = 16777216 := by decide
    have hd1 : word32 1 0 0 0 = 1 := by decide
    have hk : toInt32 (word32 0 0 0 0) = 0 := by decide
    have hm4 : mallocOk (1 * 4) = true := by decide
    rw [readRecords, hread8]
    simp only [hd1, hk, h1, hm4, if_true, readRecords]
    rfl
  rw [hfile, readInput, hread]
  simp only [hn, hm, if_true]
  rw [show (1 : Int).toNat = 1 from rfl, hrec]

/-- C6 (fails on the code): the 12-byte file that declares one record with a
payload of one word and ends right after the record's header is read without
error; the run succeeds and writes the record with the four bytes the
allocated buffer happened to hold. -/
theorem truncated_last_payload_accepted (M : Nat) (heap : Nat → Nat → Byte) :
    main (M + 1) heap (bytes32 1 ++ bytes32 0 ++ bytes32 1) =
      { result := .ok (),
        output := some (bytes32 1 ++ bytes32 0 ++ bytes32 1 ++
          [heap 0 0, heap 0 1, heap 0 2, heap 0 3]) } := by
  have hw : writeToFile (M + 1)
      (qsort comparator
        [{ key := 0, data_ints := 1,
           data_ptr := [word32 (heap 0 0) (heap 0 1) (heap 0 2) (heap 0 3)] }]) 1 =
      bytes32 1 ++ bytes32 0 ++ bytes32 1 ++ [heap 0 0, heap 0 1, heap 0 2, heap 0 3] := by
    have := writeToFile_eq (M + 1)
      [{ key := 0, data_ints := 1,
         data_ptr := [word32 (heap 0 0) (heap 0 1) (heap 0 2) (heap 0 3)] }]
      (by
        intro r hr
        simp only [List.mem_singleton] at hr
        subst hr
        exact ⟨rfl, Nat.le_add_left 1 M⟩)
    simp only [List.length_singleton, Nat.cast_one] at this
    rw [show qsort comparator
        [({ key := 0, data_ints := 1,
            data_ptr := [word32 (heap 0 0) (heap 0 1) (heap 0 2) (heap 0 3)] } : rec_dataptr_t)] =
        [{ key := 0, data_ints := 1,
           data_ptr := [word32 (heap 0 0) (heap 0 1) (heap 0 2) (heap 0 3)] }] from rfl, this]
    simp only [canonicalFile, canonicalRecord, List.flatMap_cons, List.flatMap_nil,
      List.append_nil, bytes32_word32, List.length_singleton, List.append_assoc]
    rfl
  simp only [main, readInput_missing_payload, hw]

/-- C7 (as stated, fails): with the count header 4294967295 the run stops on
the failed allocation of the pointer array; the record behind the header,
whose payload length 129 exceeds the bound 128, is never looked at, so the
failure is not `PayloadTooLarge`. -/
theorem oversized_payload_behind_huge_count :
    main 128 zeroHeap (bytes32 4294967295 ++ bytes32 0 ++ bytes32 129) =
        { result := .error .OutOfMemory, output := none } ∧
      (main 128 zeroHeap (bytes32 4294967295 ++ bytes32 0 ++ bytes32 129)).result ≠
        .error .PayloadTooLarge := by
  have h : main 128 zeroHeap (bytes32 4294967295 ++ bytes32 0 ++ bytes32 129) =
      { result := .error .OutOfMemory, output := none } := by
    apply main_error
    rw [List.append_assoc]
    exact readInput_negative_count _ _ _ _ (by decide) (by decide)
  refine ⟨h, ?_⟩
  rw [h]
  simp

/-- C7 (amended): when the count header is below 2^31 and the records before
the first oversized one are complete and within the bound, the run fails with
`PayloadTooLarge` at the record whose payload length exceeds `MAX_DATA_INTS`,
returns no record and leaves the output file untouched; a record whose payload
length equals `MAX_DATA_INTS` is decoded. -/
theorem oversized_payload_rejected (MAX_DATA_INTS : Nat) (heap : Nat → Nat → Byte) (N : Nat)
    (rs : List rec_dataptr_t) (k0 k1 k2 k3 : Byte) (len : Nat) (rest : List Byte)
    (hN : N < 2147483648) (hk : rs.length < N)
    (h : ∀ r ∈ rs, WellTyped r ∧ r.data_ints ≤ MAX_DATA_INTS)
    (hlen : MAX_DATA_INTS < len) (hlen32 : len < 4294967296) :
    (readInput MAX_DATA_INTS heap
        (bytes32 N ++ rs.flatMap canonicalRecord ++ ([k0, k1, k2, k3] ++ bytes32 len ++ rest)) =
        .error .PayloadTooLarge ∧
      main MAX_DATA_INTS heap
        (bytes32 N ++ rs.flatMap canonicalRecord ++ ([k0, k1, k2, k3] ++ bytes32 len ++ rest)) =
        { result := .error .PayloadTooLarge, output := none }) ∧
    ∀ (r : rec_dataptr_t) (j : Nat) (more : List Byte), WellTyped r →
      r.data_ints = MAX_DATA_INTS →
      readRecords MAX_DATA_INTS heap j 1 (canonicalRecord r ++ more) = .ok [r] := by
  have hread := readInput_error MAX_DATA_INTS heap N rs
    ([k0, k1, k2, k3] ++ bytes32 len ++ rest) .PayloadTooLarge (by omega) hk h
    (fun j n => readRecords_oversized MAX_DATA_INTS heap j n k0 k1 k2 k3 len rest hlen hlen32)
  rw [if_pos hN] at hread
  refine ⟨⟨hread, main_error _ _ _ _ hread⟩, ?_⟩
  intro r j more ht hr
  rw [readRecords_cons _ _ _ _ _ _ ht (Nat.le_of_eq hr)]
  rfl

theorem oversized_payload_rejected_witness :
    ((4 : Nat) < 2147483648 ∧ sampleRecords.length < 4 ∧
      (∀ r ∈ sampleRecords, WellTyped r ∧ r.data_ints ≤ 2) ∧ 2 < 3 ∧ 3 < 4294967296) ∧
    ((readInput 2 zeroHeap
        (bytes32 4 ++ sampleRecords.flatMap canonicalRecord ++
          ([9, 0, 0, 0] ++ bytes32 3 ++ [])) = .error .PayloadTooLarge ∧
      main 2 zeroHeap
        (bytes32 4 ++ sampleRecords.flatMap canonicalRecord ++
          ([9, 0, 0, 0] ++ bytes32 3 ++ [])) =
        { result := .error .PayloadTooLarge, output := none }) ∧
    ∀ (r : rec_dataptr_t) (j : Nat) (more : List Byte), WellTyped r →
      r.data_ints = 2 →
      readRecords 2 zeroHeap j 1 (canonicalRecord r ++ more) = .ok [r]) :=
  ⟨⟨by decide, by decide, by decide, by decide, by decide⟩,
    oversized_payload_rejected 2 zeroHeap 4 sampleRecords 9 0 0 0 3 []
      (by decide) (by decide) (by decide) (by decide) (by decide)⟩

/-- C8 (as stated, fails): a file that holds the three sample records and one
more byte after the last of them is read without error, as the three
records. -/
theorem trailing_byte_read_succeeds :
    readInput 128 zeroHeap (canonicalFile sampleRecords ++ [255]) = .ok (3, sampleRecords) := by
  decide

/-- C8 (amended): for a count below 2^31 and records within their C types and
the bound, bytes that follow the last declared record are ignored: the read
returns the declared records and the run is the run on the file without those
bytes; a stream that ends less than 8 bytes after some but not all of the
declared records fails with `TruncatedInput`. -/
theorem count_mismatch_fatal_only_when_short (MAX_DATA_INTS : Nat) (heap : Nat → Nat → Byte)
    (rs : List rec_dataptr_t) (hN : rs.length < 2147483648)
    (h : ∀ r ∈ rs, WellTyped r ∧ r.data_ints ≤ MAX_DATA_INTS) :
    (∀ extra : List Byte,
      readInput MAX_DATA_INTS heap (canonicalFile rs ++ extra) = .ok ((rs.length : Int), rs) ∧
      main MAX_DATA_INTS heap (canonicalFile rs ++ extra) =
        main MAX_DATA_INTS heap (canonicalFile rs)) ∧
    (∀ (N : Nat) (tail : List Byte), rs.length < N → N < 2147483648 → tail.length < 8 →
      readInput MAX_DATA_INTS heap (bytes32 N ++ rs.flatMap canonicalRecord ++ tail) =
        .error .TruncatedInput) := by
  constructor
  · intro extra
    refine ⟨readInput_canonicalFile _ _ _ _ hN h, ?_⟩
    have h0 := main_canonicalFile MAX_DATA_INTS heap rs [] hN h
    rw [List.append_nil] at h0
    rw [main_canonicalFile _ _ _ _ hN h, h0]
  · intro N tail hk hn ht
    have := readInput_error MAX_DATA_INTS heap N rs tail .TruncatedInput (by omega) hk h
      (fun j n => readRecords_short_header MAX_DATA_INTS heap j n tail ht)
    rwa [if_pos hn] at this

theorem count_mismatch_fatal_only_when_short_witness :
    (sampleRecords.length < 2147483648 ∧ ∀ r ∈ sampleRecords, WellTyped r ∧ r.data_ints ≤ 2) ∧
    (∀ extra : List Byte,
      readInput 2 zeroHeap (canonicalFile sampleRecords ++ extra) =
        .ok ((sampleRecords.length : Int), sampleRecords) ∧
      main 2 zeroHeap (canonicalFile sampleRecords ++ extra) =
        main 2 zeroHeap (canonicalFile sampleRecords)) ∧
    (∀ (N : Nat) (tail : List Byte), sampleRecords.length < N → N < 2147483648 →
      tail.length < 8 →
      readInput 2 zeroHeap (bytes32 N ++ sampleRecords.flatMap canonicalRecord ++ tail) =
        .error .TruncatedInput) :=
  ⟨⟨by decide, by decide⟩,
    count_mismatch_fatal_only_when_short 2 zeroHeap sampleRecords (by decide) (by decide)⟩

/-- C9 (as stated, fails): on the file that consists of the count header
2147483648 alone the read does not try to decode a record and fail with
`TruncatedInput`; it fails with `OutOfMemory`. -/
theorem count_two_pow_31_out_of_memory :
    readInput 128 zeroHeap (bytes32 2147483648) = .error .OutOfMemory ∧
      readInput 128 zeroHeap (bytes32 2147483648) ≠ .error .TruncatedInput := by
  decide

/-- C9 (amended): the count header is read as an `int`.  For a header value
below 2^31 the read is the decoding loop run for exactly that many records,
and a read that succeeds returns that count and that many records; for a
header value from 2^31 up to 2^32 - 1 the read fails with `OutOfMemory`
before any record is decoded. -/
theorem count_header_read_as_int (MAX_DATA_INTS : Nat) (heap : Nat → Nat → Byte) (w : Nat)
    (file : List Byte) :
    (w < 2147483648 →
      (readInput MAX_DATA_INTS heap (bytes32 w ++ file) =
        match readRecords MAX_DATA_INTS heap 0 w file with
        | .ok arrOfRecs => .ok ((w : Int), arrOfRecs)
        | .error e => .error e) ∧
      ∀ (n : Int) (recs : List rec_dataptr_t),
        readInput MAX_DATA_INTS heap (bytes32 w ++ file) = .ok (n, recs) →
        n = (w : Int) ∧ recs.length = w) ∧
    (2147483648 ≤ w → w < 4294967296 →
      readInput MAX_DATA_INTS heap (bytes32 w ++ file) = .error .OutOfMemory) := by
  constructor
  · intro hw
    have hc := readInput_count MAX_DATA_INTS heap w file hw
    refine ⟨hc, ?_⟩
    intro n recs hok
    rw [hc] at hok
    cases hrec : readRecords MAX_DATA_INTS heap 0 w file with
    | error e => rw [hrec] at hok; cases hok
    | ok arr =>
      rw [hrec] at hok
      simp only [Except.ok.injEq, Prod.mk.injEq] at hok
      rw [← hok.1, ← hok.2]
      exact ⟨rfl, readRecords_length _ _ _ _ _ _ hrec⟩
  · intro h1 h2
    exact readInput_negative_count _ _ _ _ h1 h2

theorem count_header_read_as_int_witness :
    readInput 128 zeroHeap (bytes32 3 ++ sampleRecords.flatMap canonicalRecord) =
        .ok (3, sampleRecords) ∧
      readInput 128 zeroHeap (bytes32 4294967293 ++ sampleRecords.flatMap canonicalRecord) =
        .error .OutOfMemory := by
  have h1 := (count_header_read_as_int 128 zeroHeap 3
    (sampleRecords.flatMap canonicalRecord)).1 (by decide)
  have h2 := (count_header_read_as_int 128 zeroHeap 4294967293
    (sampleRecords.flatMap canonicalRecord)).2 (by decide) (by decide)
  refine ⟨?_, h2⟩
  rw [h1.1]
  decide

/-- C10: a run whose read fails ends with that error and never opens the
output file; the read fails when the file is shorter than the 4-byte count,
when it ends less than 8 bytes into the header of a declared record, and when
a declared record has a payload length above `MAX_DATA_INTS`. -/
theorem read_failure_leaves_output_untouched (MAX_DATA_INTS : Nat) (heap : Nat → Nat → Byte) :
    (∀ (input : List Byte) (e : Error), readInput MAX_DATA_INTS heap input = .error e →
      main MAX_DATA_INTS heap input = { result := .error e, output := none }) ∧
    (∀ input : List Byte, input.length < 4 →
      readInput MAX_DATA_INTS heap input = .error .TruncatedInput) ∧
    (∀ (N : Nat) (rs : List rec_dataptr_t) (tail : List Byte), N < 4294967296 →
      rs.length < N → (∀ r ∈ rs, WellTyped r ∧ r.data_ints ≤ MAX_DATA_INTS) →
      tail.length < 8 →
      readInput MAX_DATA_INTS heap (bytes32 N ++ rs.flatMap canonicalRecord ++ tail) =
        .error (if N < 2147483648 then .TruncatedInput else .OutOfMemory)) ∧
    (∀ (N : Nat) (rs : List rec_dataptr_t) (k0 k1 k2 k3 : Byte) (len : Nat) (rest : List Byte),
      N < 4294967296 → rs.length < N →
      (∀ r ∈ rs, WellTyped r ∧ r.data_ints ≤ MAX_DATA_INTS) →
      MAX_DATA_INTS < len → len < 4294967296 →
      readInput MAX_DATA_INTS heap
          (bytes32 N ++ rs.flatMap canonicalRecord ++ ([k0, k1, k2, k3] ++ bytes32 len ++ rest)) =
        .error (if N < 2147483648 then .PayloadTooLarge else .OutOfMemory)) := by
  refine ⟨fun input e h => main_error _ _ _ _ h, fun input h => readInput_short _ _ _ h, ?_, ?_⟩
  · intro N rs tail hN hk h ht
    exact readInput_error _ _ N rs tail .TruncatedInput hN hk h
      (fun j n => readRecords_short_header _ _ j n tail ht)
  · intro N rs k0 k1 k2 k3 len rest hN hk h hlen hlen32
    exact readInput_error _ _ N rs _ .PayloadTooLarge hN hk h
      (fun j n => readRecords_oversized _ _ j n k0 k1 k2 k3 len rest hlen hlen32)

theorem read_failure_leaves_output_untouched_witness :
    main 128 zeroHeap [3, 0, 0] = { result := .error .TruncatedInput, output := none } ∧
      main 128 zeroHeap (bytes32 1 ++ [5, 0, 0, 0, 1, 0, 0]) =
        { result := .error .TruncatedInput, output := none } ∧
      main 128 zeroHeap (bytes32 1 ++ ([5, 0, 0, 0] ++ bytes32 129 ++ [7])) =
        { result := .error .PayloadTooLarge, output := none } := by
  have h := read_failure_leaves_output_untouched 128 zeroHeap
  refine ⟨h.1 _ _ (h.2.1 _ (by decide)), h.1 _ _ ?_, h.1 _ _ ?_⟩
  · exact h.2.2.1 1 [] [5, 0, 0, 0, 1, 0, 0] (by decide) (by decide) (by decide) (by decide)
  · exact h.2.2.2 1 [] 5 0 0 0 129 [7] (by decide) (by decide) (by decide) (by decide)
      (by decide)

/-! ## Two concrete runs -/

/-- C11: on the input file that consists of the 4-byte count 0 the read
returns no record, sorting leaves the empty collection as it is, and the run
succeeds with an output file of exactly the 4 bytes of the count 0. -/
theorem empty_input_gives_empty_output (MAX_DATA_INTS : Nat) (heap : Nat → Nat → Byte) :
    readInput MAX_DATA_INTS heap [0, 0, 0, 0] = .ok (0, []) ∧
      qsort comparator [] = [] ∧
      main MAX_DATA_INTS heap [0, 0, 0, 0] =
        { result := .ok (), output := some [0, 0, 0, 0] } := by
  refine ⟨rfl, rfl, rfl⟩

/-- C12: with room for two payload words, the run on the file with count 3 and
the records (5, []), (2, [7]), (9, [1, 2]) succeeds and writes the file with
count 3 and the records (2, [7]), (5, []), (9, [1, 2]); both files are given
byte for byte. -/
theorem concrete_scenario (MAX_DATA_INTS : Nat) (heap : Nat → Nat → Byte)
    (hmax : 2 ≤ MAX_DATA_INTS) :
    canonicalFile sampleRecords =
        [3, 0, 0, 0, 5, 0, 0, 0, 0, 0, 0, 0, 2, 0, 0, 0, 1, 0, 0, 0, 7, 0, 0, 0,
          9, 0, 0, 0, 2, 0, 0, 0, 1, 0, 0, 0, 2, 0, 0, 0] ∧
      canonicalFile [{ key := 2, data_ints := 1, data_ptr := [7] },
          { key := 5, data_ints := 0, data_ptr := [] },
          { key := 9, data_ints := 2, data_ptr := [1, 2] }] =
        [3, 0, 0, 0, 2, 0, 0, 0, 1, 0, 0, 0, 7, 0, 0, 0, 5, 0, 0, 0, 0, 0, 0, 0,
          9, 0, 0, 0, 2, 0, 0, 0, 1, 0, 0, 0, 2, 0, 0, 0] ∧
      main MAX_DATA_INTS heap
          [3, 0, 0, 0, 5, 0, 0, 0, 0, 0, 0, 0, 2, 0, 0, 0, 1, 0, 0, 0, 7, 0, 0, 0,
            9, 0, 0, 0, 2, 0, 0, 0, 1, 0, 0, 0, 2, 0, 0, 0] =
        { result := .ok (),
          output := some
            [3, 0, 0, 0, 2, 0, 0, 0, 1, 0, 0, 0, 7, 0, 0, 0, 5, 0, 0, 0, 0, 0, 0, 0,
              9, 0, 0, 0, 2, 0, 0, 0, 1, 0, 0, 0, 2, 0, 0, 0] } := by
  have hin : canonicalFile sampleRecords =
      [3, 0, 0, 0, 5, 0, 0, 0, 0, 0, 0, 0, 2, 0, 0, 0, 1, 0, 0, 0, 7, 0, 0, 0,
        9, 0, 0, 0, 2, 0, 0, 0, 1, 0, 0, 0, 2, 0, 0, 0] := by decide
  have hout : canonicalFile [{ key := 2, data_ints := 1, data_ptr := [7] },
        { key := 5, data_ints := 0, data_ptr := [] },
        { key := 9, data_ints := 2, data_ptr := [1, 2] }] =
      [3, 0, 0, 0, 2, 0, 0, 0, 1, 0, 0, 0, 7, 0, 0, 0, 5, 0, 0, 0, 0, 0, 0, 0,
        9, 0, 0, 0, 2, 0, 0, 0, 1, 0, 0, 0, 2, 0, 0, 0] := by decide
  refine ⟨hin, hout, ?_⟩
  have hwt : ∀ r ∈ sampleRecords, WellTyped r ∧ r.data_ints ≤ MAX_DATA_INTS := by
    have h2 : ∀ r ∈ sampleRecords, WellTyped r ∧ r.data_ints ≤ 2 := by decide
    exact fun r hr => ⟨(h2 r hr).1, Nat.le_trans (h2 r hr).2 hmax⟩
  have hmain := main_canonicalFile MAX_DATA_INTS heap sampleRecords [] (by decide) hwt
  have hsort : qsort comparator sampleRecords =
      [{ key := 2, data_ints := 1, data_ptr := [7] },
        { key := 5, data_ints := 0, data_ptr := [] },
        { key := 9, data_ints := 2, data_ptr := [1, 2] }] := by decide
  rw [List.append_nil, hsort, hin, hout] at hmain
  exact hmain

theorem concrete_scenario_witness :
    (2 ≤ 128) ∧
    (canonicalFile sampleRecords =
        [3, 0, 0, 0, 5, 0, 0, 0, 0, 0, 0, 0, 2, 0, 0, 0, 1, 0, 0, 0, 7, 0, 0, 0,
          9, 0, 0, 0, 2, 0, 0, 0, 1, 0, 0, 0, 2, 0, 0, 0] ∧
      canonicalFile [{ key := 2, data_ints := 1, data_ptr := [7] },
          { key := 5, data_ints := 0, data_ptr := [] },
          { key := 9, data_ints := 2, data_ptr := [1, 2] }] =
        [3, 0, 0, 0, 2, 0, 0, 0, 1, 0, 0, 0, 7, 0, 0, 0, 5, 0, 0, 0, 0, 0, 0, 0,
          9, 0, 0, 0, 2, 0, 0, 0, 1, 0, 0, 0, 2, 0, 0, 0] ∧
      main 128 zeroHeap
          [3, 0, 0, 0, 5, 0, 0, 0, 0, 0, 0, 0, 2, 0, 0, 0, 1, 0, 0, 0, 7, 0, 0, 0,
            9, 0, 0, 0, 2, 0, 0, 0, 1, 0, 0, 0, 2, 0, 0, 0] =
        { result := .ok (),
          output := some
            [3, 0, 0, 0, 2, 0, 0, 0, 1, 0, 0, 0, 7, 0, 0, 0, 5, 0, 0, 0, 0, 0, 0, 0,
              9, 0, 0, 0, 2, 0, 0, 0, 1, 0, 0, 0, 2, 0, 0, 0] }) :=
  ⟨by decide, concrete_scenario 128 zeroHeap (by decide)⟩

/-! ## Sorting -/

theorem wrap32_eq (x : Int) (h1 : -2147483648 ≤ x) (h2 : x < 2147483648) : wrap32 x = x :=
  toInt32_ofInt32 x h1 h2

theorem comparator_eq_sub (a b : rec_dataptr_t) (h1 : -2147483648 ≤ a.key - b.key)
    (h2 : a.key - b.key < 2147483648) : comparator a b = a.key - b.key :=
  wrap32_eq _ h1 h2

theorem orderedInsert_congr (r s : rec_dataptr_t → rec_dataptr_t → Prop) [DecidableRel r]
    [DecidableRel s] (a : rec_dataptr_t) (l : List rec_dataptr_t)
    (h : ∀ b ∈ l, (r a b ↔ s a b)) : List.orderedInsert r a l = List.orderedInsert s a l := by
  induction l with
  | nil => rfl
  | cons b l ih =>
    have hb := h b (List.mem_cons_self _ _)
    have hl := ih (fun x hx => h x (List.mem_cons_of_mem _ hx))
    by_cases hr : r a b
    · simp only [List.orderedInsert, if_pos hr, if_pos (hb.mp hr)]
    · simp only [List.orderedInsert, if_neg hr, if_neg (fun hs => hr (hb.mpr hs)), hl]

theorem insertionSort_congr (r s : rec_dataptr_t → rec_dataptr_t → Prop) [DecidableRel r]
    [DecidableRel s] (l : List rec_dataptr_t)
    (h : ∀ a ∈ l, ∀ b ∈ l, (r a b ↔ s a b)) : List.insertionSort r l = List.insertionSort s l := by
  induction l with
  | nil => rfl
  | cons a l ih =>
    have hl := ih (fun x hx y hy => h x (List.mem_cons_of_mem _ hx) y (List.mem_cons_of_mem _ hy))
    simp only [List.insertionSort, hl]
    apply orderedInsert_congr
    intro b hb
    exact h a (List.mem_cons_self _ _) b
      (List.mem_cons_of_mem _ ((List.mem_insertionSort s).mp hb))

theorem keysAscending_of_sorted (l : List rec_dataptr_t)
    (h : List.Sorted (fun a b : rec_dataptr_t => a.key ≤ b.key) l) : keysAscending l := by
  induction l with
  | nil => trivial
  | cons a l ih =>
    cases l with
    | nil => trivial
    | cons b l =>
      have h1 := List.sorted_cons.mp h
      exact ⟨h1.1 b (List.mem_cons_self _ _), ih h1.2⟩

theorem keysAscending_qsort (rs : List rec_dataptr_t)
    (hrange : ∀ a ∈ rs, ∀ b ∈ rs,
      -2147483648 ≤ a.key - b.key ∧ a.key - b.key < 2147483648) :
    keysAscending (qsort comparator rs) := by
  have hcongr : qsort comparator rs =
      List.insertionSort (fun a b : rec_dataptr_t => a.key ≤ b.key) rs := by
    apply insertionSort_congr
    intro a ha b hb
    rw [comparator_eq_sub a b (hrange a ha b hb).1 (hrange a ha b hb).2]
    omega
  rw [hcongr]
  apply keysAscending_of_sorted
  haveI : IsTotal rec_dataptr_t (fun a b => a.key ≤ b.key) := ⟨fun a b => le_total a.key b.key⟩
  haveI : IsTrans rec_dataptr_t (fun a b => a.key ≤ b.key) :=
    ⟨fun a b c hab hbc => le_trans hab hbc⟩
  exact List.sorted_insertionSort _ rs

theorem comparator_pos_swap (a b : rec_dataptr_t) (h : 0 < comparator a b) :
    comparator b a ≤ 0 := by
  have hs : b.key - a.key = -(a.key - b.key) := by omega
  simp only [comparator, wrap32, toInt32, ofInt32, hs] at h ⊢
  split at h <;> split <;> omega

theorem orderedBy_orderedInsert (a : rec_dataptr_t) (l : List rec_dataptr_t)
    (h : orderedBy comparator l) :
    orderedBy comparator (List.orderedInsert (fun x y => comparator x y ≤ 0) a l) := by
  induction l with
  | nil => trivial
  | cons b l ih =>
    by_cases hab : comparator a b ≤ 0
    · simp only [List.orderedInsert, if_pos hab]
      exact ⟨hab, h⟩
    · have hba : comparator b a ≤ 0 := comparator_pos_swap a b (by omega)
      simp only [List.orderedInsert, if_neg hab]
      cases l with
      | nil => exact ⟨hba, trivial⟩
      | cons c l =>
        have hc := ih h.2
        by_cases hac : comparator a c ≤ 0
        · simp only [List.orderedInsert, if_pos hac] at hc ⊢
          exact ⟨hba, hc⟩
        · simp only [List.orderedInsert, if_neg hac] at hc ⊢
          exact ⟨h.1, hc⟩

theorem orderedBy_qsort (l : List rec_dataptr_t) : orderedBy comparator (qsort comparator l) := by
  induction l with
  | nil => trivial
  | cons a l ih => exact orderedBy_orderedInsert a _ ih

theorem qsort_of_orderedBy (cmp : rec_dataptr_t → rec_dataptr_t → Int)
    (l : List rec_dataptr_t) (h : orderedBy cmp l) : qsort cmp l = l := by
  induction l with
  | nil => rfl
  | cons a l ih =>
    cases l with
    | nil => rfl
    | cons b l =>
      have hl : qsort cmp (b :: l) = b :: l := ih h.2
      show List.orderedInsert _ a (qsort cmp (b :: l)) = a :: b :: l
      rw [hl]
      simp only [List.orderedInsert, if_pos h.1]

/-- In this model of `qsort`, with its stable insertion, sorting a second time
changes nothing, whatever the keys. -/
theorem qsort_qsort (l : List rec_dataptr_t) :
    qsort comparator (qsort comparator l) = qsort comparator l :=
  qsort_of_orderedBy comparator _ (orderedBy_qsort l)

/-- C13 (fails on the code): the collection with the keys -2 and 2147483647,
in this order, has its keys in ascending order, yet sorting it with
`comparator` exchanges the two records, so the key sequence changes. -/
theorem sorting_ascending_keys_changes_them :
    keysAscending [{ key := -2, data_ints := 0, data_ptr := [] },
        { key := 2147483647, data_ints := 0, data_ptr := [] }] ∧
      qsort comparator [{ key := -2, data_ints := 0, data_ptr := [] },
          { key := 2147483647, data_ints := 0, data_ptr := [] }] =
        [{ key := 2147483647, data_ints := 0, data_ptr := [] },
          { key := -2, data_ints := 0, data_ptr := [] }] ∧
      (qsort comparator [{ key := -2, data_ints := 0, data_ptr := [] },
          { key := 2147483647, data_ints := 0, data_ptr := [] }]).map (fun r => r.key) ≠
        [-2, 2147483647] := by
  decide

theorem no_wrap_of_nonneg_keys (rs : List rec_dataptr_t)
    (h : ∀ r ∈ rs, 0 ≤ r.key ∧ r.key ≤ 2147483647) :
    ∀ a ∈ rs, ∀ b ∈ rs, -2147483648 ≤ a.key - b.key ∧ a.key - b.key < 2147483648 := by
  intro a ha b hb
  have h1 := h a ha
  have h2 := h b hb
  omega

theorem no_wrap_of_small_keys (rs : List rec_dataptr_t)
    (h : ∀ r ∈ rs, -1073741824 ≤ r.key ∧ r.key ≤ 1073741823) :
    ∀ a ∈ rs, ∀ b ∈ rs, -2147483648 ≤ a.key - b.key ∧ a.key - b.key < 2147483648 := by
  intro a ha b hb
  have h1 := h a ha
  have h2 := h b hb
  omega

/-- C15: on a well-formed input file in which the difference of any two keys
fits an `int` (as when all keys lie in 0 .. 2^31 - 1, or all in
-2^30 .. 2^30 - 1), `comparator` has the sign of the signed comparison of the
keys on every pair of records, and whatever `main` writes is the canonical
file of a permutation of the input records with the keys in non-decreasing
order; when the count is below 2^31 the run does write such a file. -/
theorem sorted_when_differences_do_not_wrap (MAX_DATA_INTS : Nat) (heap : Nat → Nat → Byte)
    (rs : List rec_dataptr_t) (hN : rs.length < 4294967296)
    (h : ∀ r ∈ rs, WellTyped r ∧ r.data_ints ≤ MAX_DATA_INTS)
    (hrange : ∀ a ∈ rs, ∀ b ∈ rs,
      -2147483648 ≤ a.key - b.key ∧ a.key - b.key < 2147483648) :
    (∀ a ∈ rs, ∀ b ∈ rs,
      (comparator a b < 0 ↔ a.key < b.key) ∧ (comparator a b = 0 ↔ a.key = b.key) ∧
        (0 < comparator a b ↔ b.key < a.key)) ∧
    (∀ out, (main MAX_DATA_INTS heap (canonicalFile rs)).output = some out →
      ∃ written, written.Perm rs ∧ keysAscending written ∧ out = canonicalFile written) ∧
    (rs.length < 2147483648 →
      ∃ written, written.Perm rs ∧ keysAscending written ∧
        main MAX_DATA_INTS heap (canonicalFile rs) =
          { result := .ok (), output := some (canonicalFile written) }) := by
  have hmain := fun hn => main_canonicalFile MAX_DATA_INTS heap rs [] hn h
  simp only [List.append_nil] at hmain
  refine ⟨?_, ?_, ?_⟩
  · intro a ha b hb
    rw [comparator_eq_sub a b (hrange a ha b hb).1 (hrange a ha b hb).2]
    omega
  · intro out hout
    by_cases hn : rs.length < 2147483648
    · rw [hmain hn] at hout
      simp only [Option.some.injEq] at hout
      exact ⟨qsort comparator rs, perm_qsort _ _, keysAscending_qsort rs hrange, hout.symm⟩
    · have hneg : readInput MAX_DATA_INTS heap (canonicalFile rs) = .error .OutOfMemory :=
        readInput_negative_count _ _ _ _ (by omega) hN
      simp only [main, hneg] at hout
      cases hout
  · intro hn
    exact ⟨qsort comparator rs, perm_qsort _ _, keysAscending_qsort rs hrange, hmain hn⟩

theorem sorted_when_differences_do_not_wrap_witness :
    (boundaryRecords.length < 4294967296 ∧
      (∀ r ∈ boundaryRecords, WellTyped r ∧ r.data_ints ≤ 1) ∧
      ∀ a ∈ boundaryRecords, ∀ b ∈ boundaryRecords,
        -2147483648 ≤ a.key - b.key ∧ a.key - b.key < 2147483648) ∧
    (∀ a ∈ boundaryRecords, ∀ b ∈ boundaryRecords,
      (comparator a b < 0 ↔ a.key < b.key) ∧ (comparator a b = 0 ↔ a.key = b.key) ∧
        (0 < comparator a b ↔ b.key < a.key)) ∧
    (∀ out, (main 1 zeroHeap (canonicalFile boundaryRecords)).output = some out →
      ∃ written, written.Perm boundaryRecords ∧ keysAscending written ∧
        out = canonicalFile written) ∧
    (boundaryRecords.length < 2147483648 →
      ∃ written, written.Perm boundaryRecords ∧ keysAscending written ∧
        main 1 zeroHeap (canonicalFile boundaryRecords) =
          { result := .ok (), output := some (canonicalFile written) }) :=
  ⟨⟨by decide, by decide, by decide⟩,
    sorted_when_differences_do_not_wrap 1 zeroHeap boundaryRecords (by decide) (by decide)
      (by decide)⟩

/-! ## The staging record of the writer -/

theorem copyData_indices (data_ptr : List Nat) (data_ints : Nat) (data : List Nat) :
    copyData data_ptr data_ints data =
      (copyIndices data_ints).foldl (fun d j => d.set j (data_ptr.getD j 0)) data :=
  rfl

theorem writeRecord_data_size (rec_data : rec_data_t) (r : rec_dataptr_t) :
    (writeRecord rec_data r).2 =
      (image (writeRecord rec_data r).1).take (data_size r.data_ints) :=
  rfl

theorem length_image (r : rec_data_t) : (image r).length = sizeof_rec_data_t r.data.length := by
  simp only [image, List.length_append, length_bytes32, length_flatMap_bytes32,
    sizeof_rec_data_t]

theorem length_words : ∀ (n : Nat) (l : List Byte), l.length = 4 * n → (words l).length = n := by
  intro n
  induction n with
  | zero =>
    intro l hl
    have : l = [] := List.length_eq_zero.mp (by omega)
    rw [this]; rfl
  | succ n ih =>
    intro l hl
    match l, hl with
    | b0 :: b1 :: b2 :: b3 :: rest, hl =>
      simp only [List.length_cons] at hl
      show (word32 b0 b1 b2 b3 :: words rest).length = n + 1
      rw [List.length_cons, ih rest (by omega)]
    | [], hl => simp only [List.length_nil] at hl; omega
    | [_], hl => simp only [List.length_cons, List.length_nil] at hl; omega
    | [_, _], hl => simp only [List.length_cons, List.length_nil] at hl; omega
    | [_, _, _], hl => simp only [List.length_cons, List.length_nil] at hl; omega

theorem readRecords_bound (MAX_DATA_INTS : Nat) (heap : Nat → Nat → Byte) :
    ∀ (n j : Nat) (file : List Byte) (rs : List rec_dataptr_t),
      readRecords MAX_DATA_INTS heap j n file = .ok rs →
      ∀ r ∈ rs, r.data_ints ≤ MAX_DATA_INTS ∧ r.data_ptr.length = r.data_ints := by
  intro n
  induction n with
  | zero =>
    intro j file rs h
    simp only [readRecords, Except.ok.injEq] at h
    rw [← h]
    intro r hr
    cases hr
  | succ n ih =>
    intro j file rs h
    rw [readRecords] at h
    split at h
    · dsimp only at h
      split at h
      · split at h
        · split at h
          · rename_i hle _ _ more hmore
            simp only [Except.ok.injEq] at h
            rw [← h]
            intro r hr
            rcases List.mem_cons.mp hr with rfl | hr
            · refine ⟨hle, ?_⟩
              apply length_words
              simp only [read, List.length_append, List.length_take, List.length_drop,
                fresh_length]
              omega
            · exact ih _ _ _ hmore r hr
          · cases h
        · cases h
      · cases h
    · cases h

theorem readInput_bound (MAX_DATA_INTS : Nat) (heap : Nat → Nat → Byte) (input : List Byte)
    (numOfRecs : Int) (arrOfRecs : List rec_dataptr_t)
    (h : readInput MAX_DATA_INTS heap input = .ok (numOfRecs, arrOfRecs)) :
    ∀ r ∈ arrOfRecs, r.data_ints ≤ MAX_DATA_INTS ∧ r.data_ptr.length = r.data_ints := by
  rw [readInput] at h
  split at h
  · dsimp only at h
    split at h
    · split at h
      · rename_i recs hrecs
        simp only [Except.ok.injEq, Prod.mk.injEq] at h
        rw [← h.2]
        exact readRecords_bound _ _ _ _ _ _ hrecs
      · cases h
    · cases h
  · cases h

/-- C16: every record the read of `main` returns has at most `MAX_DATA_INTS`
payload words, and so has every record of the sorted array; hence for each
record passed to `writeToFile` every index of the copy loop lies inside the
staging array and inside the record's own buffer, `data_size` does not exceed
the size of `rec_data_t`, and a pass over a staging record with
`MAX_DATA_INTS` words writes exactly `data_size` bytes and leaves the array
at that length. -/
theorem staging_buffer_never_overrun (MAX_DATA_INTS : Nat) (heap : Nat → Nat → Byte)
    (input : List Byte) (numOfRecs : Int) (arrOfRecs : List rec_dataptr_t)
    (hread : readInput MAX_DATA_INTS heap input = .ok (numOfRecs, arrOfRecs)) :
    (∀ r ∈ arrOfRecs, r.data_ints ≤ MAX_DATA_INTS) ∧
    ∀ r ∈ qsort comparator arrOfRecs,
      r.data_ints ≤ MAX_DATA_INTS ∧
      (∀ j ∈ copyIndices r.data_ints, j < MAX_DATA_INTS ∧ j < r.data_ptr.length) ∧
      data_size r.data_ints ≤ sizeof_rec_data_t MAX_DATA_INTS ∧
      ∀ rec_data : rec_data_t, rec_data.data.length = MAX_DATA_INTS →
        (writeRecord rec_data r).2.length = data_size r.data_ints ∧
        (writeRecord rec_data r).1.data.length = MAX_DATA_INTS := by
  have hb := readInput_bound MAX_DATA_INTS heap input numOfRecs arrOfRecs hread
  refine ⟨fun r hr => (hb r hr).1, ?_⟩
  intro r hr
  obtain ⟨hle, hlen⟩ := hb r ((perm_qsort comparator arrOfRecs).subset hr)
  refine ⟨hle, ?_, ?_, ?_⟩
  · intro j hj
    have : j < r.data_ints := List.mem_range.mp hj
    omega
  · simp only [data_size, sizeof_rec_data_t]
    omega
  · intro rec_data hdata
    rw [writeRecord_bytes rec_data r hlen (by omega), length_canonicalRecord r hlen,
      writeRecord_length, hdata]
    simp only [data_size, and_true]
    omega

theorem staging_buffer_never_overrun_witness :
    readInput 2 zeroHeap (canonicalFile sampleRecords) = .ok (3, sampleRecords) ∧
    (∀ r ∈ sampleRecords, r.data_ints ≤ 2) ∧
    ∀ r ∈ qsort comparator sampleRecords,
      r.data_ints ≤ 2 ∧
      (∀ j ∈ copyIndices r.data_ints, j < 2 ∧ j < r.data_ptr.length) ∧
      data_size r.data_ints ≤ sizeof_rec_data_t 2 ∧
      ∀ rec_data : rec_data_t, rec_data.data.length = 2 →
        (writeRecord rec_data r).2.length = data_size r.data_ints ∧
        (writeRecord rec_data r).1.data.length = 2 :=
  ⟨by decide,
    staging_buffer_never_overrun 2 zeroHeap (canonicalFile sampleRecords) 3 sampleRecords
      (by decide)⟩

/-! ## The command line -/

/-- C14 (fails on the code): the argument vector `varsort -i a -i b`, with no
`-o`, passes the argument checking, with `inFile` set to `b` and `outFile`
never assigned.  Well-formed vectors are accepted: `-i <inputfile>` and
`-o <outputfile>`, in either order, pass with `inFile` and `outFile` set to
the given paths, and any vector that has not exactly five entries gets the
usage message. -/
theorem missing_output_flag_accepted :
    checkArgs [['v', 'a', 'r', 's', 'o', 'r', 't'], ['-', 'i'], ['a'], ['-', 'i'], ['b']] =
        .accepted (some ['b']) none ∧
      (∀ prog inputfile outputfile : List Char,
        checkArgs [prog, ['-', 'i'], inputfile, ['-', 'o'], outputfile] =
            .accepted (some inputfile) (some outputfile) ∧
          checkArgs [prog, ['-', 'o'], outputfile, ['-', 'i'], inputfile] =
            .accepted (some inputfile) (some outputfile)) ∧
      ∀ argv : List (List Char), argv.length ≠ 5 → checkArgs argv = .usage := by
  refine ⟨by decide, fun prog inputfile outputfile => ⟨rfl, rfl⟩, ?_⟩
  intro argv h
  simp only [checkArgs, if_pos h]

end Varsort
